import Mathlib

/-
Shallow Lean embedding of the voice-to-todoist pipeline
(src/tools/voice-note-raycast.js and src/extension/src/record-voice-task.ts):
clipboard capture handshake, classifier post-processing, declarative rule
application, taxonomy resolution (projects / sections / labels) and the
final task-request body, together with proofs about this code.

Modelling conventions:
* JavaScript strings are Lean `String`s (the code paths in question are
  ASCII; `.length`, `.slice`, `.toLowerCase` agree on that fragment).
* A JS value that may be `null`/`undefined`/absent is an `Option`.
* JS truthiness of strings ("" is falsy) and numbers (0 is falsy) is made
  explicit via `strTruthy` / `intTruthy`.
* External collaborators (the Todoist REST API, the clipboard, the model
  service, `RegExp`) are passed in as explicit parameters or modelled by
  small executable functions, documented at their definitions.
-/

namespace VoiceTodoist

/-- JS truthiness of a possibly-missing string: `null`/`undefined` and the
empty string are falsy. -/
def strTruthy : Option String → Bool
  | none => false
  | some s => s != ""

/-- JS truthiness of a possibly-missing number: `null`/`undefined` and 0 are
falsy. -/
def intTruthy : Option Int → Bool
  | none => false
  | some n => n != 0

/-- One insertion into a JS `Set` materialised as a list: appends the element
unless it is already present (JS `Set` keeps first-insertion order). -/
def insertUnique (acc : List String) (x : String) : List String :=
  if x ∈ acc then acc else acc ++ [x]

/-- Model of `Array.from(new Set(l))`: first-occurrence deduplication of a list,
preserving order. -/
def jsSetDedup (l : List String) : List String :=
  l.foldl insertUnique []

/-- The elements of `l` that are new relative to `acc`, first occurrences
only. Specification device for reasoning about `jsSetDedup`. -/
def newElems (acc : List String) : List String → List String
  | [] => []
  | x :: rest => if x ∈ acc then newElems acc rest else x :: newElems (acc ++ [x]) rest

/-- Remove leading and trailing whitespace (JS `String.prototype.trim`). -/
def jsTrim (s : String) : String :=
  String.mk (((s.toList.dropWhile Char.isWhitespace).reverse.dropWhile Char.isWhitespace).reverse)

/-- Lowercase every character (JS `String.prototype.toLowerCase`, on the
ASCII fragment). -/
def jsToLower (s : String) : String :=
  String.mk (s.toList.map Char.toLower)

/-- Model of JS `s.slice(0, n)`. -/
def jsTake (n : Nat) (s : String) : String :=
  String.mk (s.toList.take n)

/-- Model of JS `s.split('\n')[0]`: the prefix of `s` up to the first newline. -/
def firstLine (s : String) : String :=
  String.mk (s.toList.takeWhile (fun c => c != '\n'))

/-- Tests that `n` is a prefix of `h` (on character lists). -/
def isPrefixB : List Char → List Char → Bool
  | [], _ => true
  | _ :: _, [] => false
  | a :: as, b :: bs => a == b && isPrefixB as bs

/-- Tests that `n` occurs contiguously inside `h` (on character lists). -/
def isInfixB (n : List Char) : List Char → Bool
  | [] => n.isEmpty
  | b :: bs => isPrefixB n (b :: bs) || isInfixB n bs

/-- Tests that `needle` occurs as a contiguous substring of `hay`
(JS `hay.includes(needle)`). -/
def substrB (needle hay : String) : Bool :=
  isInfixB needle.toList hay.toList

/-- Character class `[a-z0-9]` used by the fuzzy-match normalizer. -/
def isAlnumLower (c : Char) : Bool :=
  ('a' ≤ c && c ≤ 'z') || ('0' ≤ c && c ≤ '9')

/-- Collapse consecutive spaces to a single space. Together with mapping
every non-`[a-z0-9]` character to a space this implements the regex
replacement of `[^a-z0-9]+` by one space. -/
def squashSpaces : List Char → List Char
  | [] => []
  | [c] => [c]
  | a :: b :: rest =>
    if a == ' ' && b == ' ' then squashSpaces (b :: rest)
    else a :: squashSpaces (b :: rest)

/-- Remove leading and trailing spaces (after normalization the only
whitespace left is the plain space). -/
def trimSpaces (l : List Char) : List Char :=
  ((l.dropWhile (· == ' ')).reverse.dropWhile (· == ' ')).reverse

/-- Model of `normalize` from both implementations:
`String(s || '').toLowerCase().replace(/[^a-z0-9]+/g, ' ').trim()`. -/
def normalize (s : String) : String :=
  String.mk (trimSpaces (squashSpaces ((s.toList.map Char.toLower).map
    (fun c => if isAlnumLower c then c else ' '))))

/-- Model of `containsWord` from both implementations: both sides are normalized,
both must be non-empty, and the needle must be a substring of the hay. -/
def containsWord (hay needle : String) : Bool :=
  let H := normalize hay
  let N := normalize needle
  if H = "" then false else if N = "" then false else substrB N H

/-- The classifier's extraction object (`enriched`), with the fields the
pipeline reads.  All fields but `title` and `category` may be null. -/
structure Enriched where
  title : String
  description : Option String
  category : String
  projectName : Option String
  sectionName : Option String
  labels : List String
  priority : Option Int
  due_string : Option String
  urls : List String
deriving Repr, DecidableEq

/-- A declarative override rule from the rules file. An absent `labels`
array behaves exactly like an empty one, so both are modelled as `[]`. -/
structure Rule where
  test : String
  projectName : Option String
  sectionName : Option String
  labels : List String
  priority : Option Int
  due_string : Option String
deriving Repr, DecidableEq

/-- The haystack `applyRules` matches against:
`title \n description \n transcription` (missing parts become `''`). -/
def hayOf (transcription : String) (enriched : Enriched) : String :=
  enriched.title ++ "\n" ++ enriched.description.getD "" ++ "\n" ++ transcription

/-- Whether one rule fires: the trimmed pattern is non-empty, compiles, and
tests true against the haystack.  `regexTest pat hay` abstracts
`new RegExp(pat)` followed by `re.test(hay)`: `none` models a pattern whose
compilation throws (the rule is skipped), `some b` a successful test. -/
def ruleMatches (regexTest : String → String → Option Bool) (hay : String) (r : Rule) : Bool :=
  jsTrim r.test != "" && (regexTest (jsTrim r.test) hay).getD false

/-- The per-rule field fills of `applyRules`.  In the source the five
assignments happen sequentially on the same object; they touch five distinct
fields and each guard reads only its own field, so they are rendered as one
record update. Every field except `labels` is filled only when currently
falsy on the accumulator; `labels` is replaced by the deduplicated union
whenever the rule carries a non-empty label array. -/
def applyRuleFields (next : Enriched) (r : Rule) : Enriched :=
  { next with
    projectName := if !strTruthy next.projectName && strTruthy r.projectName then r.projectName else next.projectName
    sectionName := if !strTruthy next.sectionName && strTruthy r.sectionName then r.sectionName else next.sectionName
    labels := if r.labels.isEmpty then next.labels else jsSetDedup (next.labels ++ r.labels)
    priority := if !intTruthy next.priority && intTruthy r.priority then r.priority else next.priority
    due_string := if !strTruthy next.due_string && strTruthy r.due_string then r.due_string else next.due_string }

/-- One iteration of the `for (const r of rules)` loop: empty, uncompilable
and non-matching patterns are all skipped (`continue`). -/
def applyRuleStep (regexTest : String → String → Option Bool) (hay : String)
    (next : Enriched) (r : Rule) : Enriched :=
  if ruleMatches regexTest hay r then applyRuleFields next r else next

/-- Model of `applyRules` from both implementations (the `.js` one; the `.ts` one has
the identical loop body). -/
def applyRules (regexTest : String → String → Option Bool) (transcription : String)
    (enriched : Enriched) (rules : List Rule) : Enriched :=
  rules.foldl (applyRuleStep regexTest (hayOf transcription enriched)) enriched

/-- The `.ts` variant of `applyRules` loads the rules file itself inside a
`try`: a missing file, a parse error, or any exception yields the input
unchanged.  `none` models that failure path, `some rules` a loaded file. -/
def applyRulesWithLoad (regexTest : String → String → Option Bool)
    (transcription : String) (enriched : Enriched) (loaded : Option (List Rule)) : Enriched :=
  match loaded with
  | none => enriched
  | some rules => applyRules regexTest transcription enriched rules

/-- Model of ECMA-262 RegExp pattern validity, restricted to the feature the
claims exercise: a group opener `(?` must be followed by `:`, `=`, `!` or
`<`; anything else (for instance the Perl-style inline flag `(?i)`) makes
`new RegExp(pattern)` throw a SyntaxError. -/
def hasInvalidGroup : List Char → Bool
  | '(' :: '?' :: rest =>
    (match rest with
     | [] => true
     | c :: _ =>
       if c == ':' || c == '=' || c == '!' || c == '<' then hasInvalidGroup rest
       else true)
  | _ :: rest => hasInvalidGroup rest
  | [] => false

/-- A character with no special meaning in a RegExp pattern (the modelled
fragment: letters, digits, spaces). -/
def isLiteralRegexChar (c : Char) : Bool :=
  c.isAlphanum || c == ' '

/-- Model of the JavaScript `new RegExp(pattern)` / `re.test(hay)` pair
(an external platform primitive), restricted to the fragment the claims
use: a pattern containing an invalid group `(?` is a SyntaxError (`none`);
a pattern made only of literal characters tests as a substring match.
Patterns outside this fragment are conservatively mapped to `none`; no
theorem below depends on them. -/
def jsRegexTest (pattern hay : String) : Option Bool :=
  if hasInvalidGroup pattern.toList then none
  else if pattern.toList.all isLiteralRegexChar then some (substrB pattern hay)
  else none

/-- A Todoist reference object: `{ id, name }` (project, section or label). -/
structure TaxRef where
  id : String
  name : String
deriving Repr, DecidableEq

/-- The cached reference snapshot `{ projects, labels, sections }`; the
`sections` object is an association list keyed by project id. -/
structure Refs where
  projects : List TaxRef
  labels : List TaxRef
  sections : List (String × List TaxRef)
deriving Repr, DecidableEq

/-- Model of `matchProjectId`: case-insensitive exact name match after trimming;
a falsy `name` (null or empty) resolves to no project. Returns the id of
the first project whose name matches. -/
def matchProjectId (name : Option String) (projects : List TaxRef) : Option String :=
  if !strTruthy name then none
  else
    let n := jsToLower (jsTrim (name.getD ""))
    (projects.find? (fun p => jsToLower (jsTrim p.name) == n)).map TaxRef.id

/-- Model of `matchSectionId`: like `matchProjectId` but within one project's section
list; falsy name or falsy project id yield no section. -/
def matchSectionId (name : Option String) (projectId : String)
    (sectionsByProject : List (String × List TaxRef)) : Option String :=
  if !strTruthy (some projectId) || !strTruthy name then none
  else
    let list := (sectionsByProject.lookup projectId).getD []
    let n := jsToLower (jsTrim (name.getD ""))
    (list.find? (fun s => jsToLower (jsTrim s.name) == n)).map TaxRef.id

/-- The inner scoring loop of `guessSectionIdFromContent`: a section gains
`name.length` for every candidate text that `containsWord` the name. -/
def sectionScore (candidates : List String) (name : String) : Nat :=
  candidates.foldl (fun sc t => if containsWord t name then sc + name.length else sc) 0

/-- The `for (const sec of sections)` loop of `guessSectionIdFromContent`:
`best` is replaced only on a strictly larger score, so the first section
reaching the maximum wins and a zero score never wins. -/
def guessLoop (candidates : List String) : (Option String × Nat) → List TaxRef → Option String × Nat
  | best, [] => best
  | best, sec :: rest =>
    let score := sectionScore candidates sec.name
    if best.2 < score then guessLoop candidates (some sec.id, score) rest
    else guessLoop candidates best rest

/-- Core of `guessSectionIdFromContent`, over an explicit candidate list. -/
def guessCore (candidates : List String) (sections : List TaxRef) : Option String :=
  if sections.isEmpty then none
  else (guessLoop candidates ((none : Option String), 0) sections).1

/-- The candidate texts `[title, description, transcription].filter(Boolean)`
of `guessSectionIdFromContent`. -/
def candidateTexts (transcription : String) (e : Enriched) : List String :=
  ([e.title] ++ (match e.description with | some d => [d] | none => []) ++ [transcription]).filter
    (fun s => s != "")

/-- Model of `guessSectionIdFromContent` from both implementations. -/
def guessSectionIdFromContent (transcription : String) (e : Enriched) (projectId : String)
    (refs : Refs) : Option String :=
  guessCore (candidateTexts transcription e) ((refs.sections.lookup projectId).getD [])

/-- The label set sent with the task:
`Array.from(new Set(['Voice', ...labels].filter(Boolean)))`. -/
def desiredLabels (labels : List String) : List String :=
  jsSetDedup (("Voice" :: labels).filter (fun s => s != ""))

/-- Model of `clampPriority` from `voice-note-raycast.js`: a present number is
clamped to `[1,4]`; an absent or non-numeric value (`parseInt` gives `NaN`)
yields `undefined`, which `JSON.stringify` omits from the request body. -/
def clampPriority (p : Option Int) : Option Int :=
  match p with
  | none => none
  | some n => some (min 4 (max 1 n))

/-- The transcript-derived fallback title:
`transcription.split('\n')[0].slice(0, 120)`. -/
def fallbackTitle (transcription : String) : String :=
  jsTake 120 (firstLine transcription)

/-- The `POST /tasks` request body; `none` in an optional field means the
key is absent from the JSON body. -/
structure TodoistBody where
  content : String
  description : String
  project_id : Option String
  section_id : Option String
  labels : Option (List String)
  due_string : Option String
  priority : Option Int
deriving Repr, DecidableEq

/-- The request body built by `maybeAddToTodoist` in `voice-note-raycast.js`
(the pure composition; the network calls `ensureLabels` / `ensureSections`
mutate only the snapshot, which is passed in here already extended). -/
def buildTaskBodyJs (transcription : String) (e : Enriched) (explicitProjectId : Option String)
    (refs : Refs) : TodoistBody :=
  let desired := desiredLabels e.labels
  let projectId := if strTruthy explicitProjectId then explicitProjectId
                   else matchProjectId e.projectName refs.projects
  let sectionId := if strTruthy projectId then
      matchSectionId e.sectionName (projectId.getD "") refs.sections else none
  let finalSectionId :=
    if strTruthy projectId && !strTruthy sectionId then
      let guessed := guessSectionIdFromContent transcription e (projectId.getD "") refs
      if strTruthy guessed then guessed else sectionId
    else sectionId
  let content := jsTrim (if e.title != "" then e.title else fallbackTitle transcription)
  let desc0 := e.description.getD ""
  let desc1 := if desc0 = "" then transcription else desc0
  let desc := if e.urls.isEmpty then desc1
              else desc1 ++ "\n\nLinks:\n- " ++ String.intercalate "\n- " e.urls
  { content := content
    description := desc
    project_id := if strTruthy projectId then projectId else none
    section_id := if strTruthy projectId && strTruthy finalSectionId then finalSectionId else none
    labels := if desired.isEmpty then none else some desired
    due_string := if strTruthy e.due_string then e.due_string else none
    priority := clampPriority e.priority }

/-- The request body built by `maybeAddToTodoist` in `record-voice-task.ts`.
Its body object has no `priority` key at all, hence `priority := none`
unconditionally. -/
def buildTaskBodyTs (transcription : String) (e : Enriched) (defaultProjectId : Option String)
    (defaultProjectName : Option String) (refs : Refs) : TodoistBody :=
  let desired := desiredLabels e.labels
  let explicitProjectId := if strTruthy defaultProjectId then defaultProjectId
                           else matchProjectId defaultProjectName refs.projects
  let projectId := if strTruthy explicitProjectId then explicitProjectId
                   else matchProjectId e.projectName refs.projects
  let sectionId := if strTruthy projectId then
      let m := matchSectionId e.sectionName (projectId.getD "") refs.sections
      if !strTruthy m then guessSectionIdFromContent transcription e (projectId.getD "") refs else m
    else none
  let content := jsTrim (if e.title != "" then e.title else fallbackTitle transcription)
  let desc1 := if strTruthy e.description then e.description.getD "" else transcription
  let desc := if e.urls.isEmpty then desc1
              else desc1 ++ "\n\nLinks:\n- " ++ String.intercalate "\n- " e.urls
  { content := content
    description := desc
    project_id := if strTruthy projectId then projectId else none
    section_id := if strTruthy projectId && strTruthy sectionId then sectionId else none
    labels := if desired.isEmpty then none else some desired
    due_string := if strTruthy e.due_string then e.due_string else none
    priority := none }

/-- Model of `ensureSections`: a falsy project id returns immediately; an existing
entry in the sections object returns immediately (the stored value is
always an array, and arrays — including `[]` — are truthy in JS, so the
check behaves as key presence); otherwise the project's sections are
fetched once and stored.  `remote` abstracts a successful
`GET sections?project_id=`; the second component counts the fetches the
call performed. -/
def ensureSections (remote : String → List TaxRef) (refs : Refs) (projectId : String) :
    Refs × Nat :=
  if projectId = "" then (refs, 0)
  else
    match refs.sections.lookup projectId with
    | some _ => (refs, 0)
    | none => ({ refs with sections := refs.sections ++ [(projectId, remote projectId)] }, 1)

/-- The polling loop of `waitForClipboardChangeFromSentinel`.  `reads i` is
the clipboard content seen by the `i`-th `pbpaste`; `fuel` is the number of
polls the 20-second window allows.  A read is accepted only when it is
non-empty, differs from the sentinel and the previous read, and is at least
8 characters long; the confirming second read replaces it only when it is
non-empty and at least as long. Exhausted fuel (timeout) returns `''`. -/
def waitLoop (sentinel : String) (reads : Nat → String) : Nat → Nat → String → String
  | 0, _, _ => ""
  | fuel + 1, i, last =>
    let cur := reads i
    if cur ≠ "" ∧ cur ≠ sentinel ∧ cur ≠ last ∧ 8 ≤ cur.length then
      let cur2 := reads (i + 1)
      if cur2 ≠ "" ∧ cur.length ≤ cur2.length then cur2 else cur
    else waitLoop sentinel reads fuel (i + 1) cur

/-- Model of `waitForClipboardChangeFromSentinel`: the loop starts with
`last = sentinel` at the first read. -/
def waitForClipboardChangeFromSentinel (sentinel : String) (reads : Nat → String)
    (fuel : Nat) : String :=
  waitLoop sentinel reads fuel 0 sentinel

/-- Model of `captureClipboardTranscription`: an empty capture (timeout) throws
`'Timeout waiting for transcription'` (`none`); otherwise the trimmed
capture is returned. -/
def captureClipboardTranscription (sentinel : String) (reads : Nat → String) (fuel : Nat) :
    Option String :=
  let captured := waitForClipboardChangeFromSentinel sentinel reads fuel
  if captured = "" then none else some captured.trim

/-- Model of `category.charAt(0).toUpperCase() + category.slice(1)`. -/
def capitalizeFirst (s : String) : String :=
  match s.toList with
  | [] => ""
  | c :: rest => String.mk (c.toUpper :: rest)

/-- The externally visible side effects of one run: archive files written
(category directory, contents) and task-creation requests issued. -/
structure RunEffects where
  archiveWrites : List (String × String)
  taskPosts : List TodoistBody
deriving Repr, DecidableEq

/-- The `main` flow of `voice-note-raycast.js` after configuration:
capture → classify (abstracted as `analysisOf`) → archive the transcript →
post the task.  The second component is the fatal error, if any; a capture
timeout aborts the run before any archive write or task request. -/
def runPipeline (sentinel : String) (reads : Nat → String) (fuel : Nat)
    (analysisOf : String → Enriched) (explicitProjectId : Option String) (refs : Refs) :
    RunEffects × Option String :=
  match captureClipboardTranscription sentinel reads fuel with
  | none => (⟨[], []⟩, some "Timeout waiting for transcription")
  | some transcription =>
    let e := analysisOf transcription
    let category := jsToLower (if e.category != "" then e.category else "misc")
    let body := buildTaskBodyJs transcription e explicitProjectId refs
    (⟨[(capitalizeFirst category, transcription)], [body]⟩, none)

/-- A JavaScript value as produced by `JSON.parse` and mutated by the
classifier post-processing.  Arrays carry an extra `props` list so that
expando property assignment on an array (legal in JS) is representable;
`JSON.parse` itself always yields arrays with `props = []`. -/
inductive JSValue where
  | null
  | bool (b : Bool)
  | num (n : Int)
  | str (s : String)
  | arr (elems : List JSValue) (props : List (String × JSValue))
  | obj (fields : List (String × JSValue))

/-- Assign a field in an object's field list, overwriting the first
occurrence or appending. -/
def setField : List (String × JSValue) → String → JSValue → List (String × JSValue)
  | [], k, v => [(k, v)]
  | (k', v') :: rest, k, v =>
    if k' = k then (k, v) :: rest else (k', v') :: setField rest k v

/-- JS property read `v[k]` in the fragment exercised here: reading on
`null` throws a TypeError; objects and arrays look the key up (`none` is
`undefined`); primitives are boxed and have no own properties. -/
def jsGet (v : JSValue) (k : String) : Except String (Option JSValue) :=
  match v with
  | .null => .error "TypeError: cannot read properties of null"
  | .obj fields => .ok (fields.lookup k)
  | .arr _ props => .ok (props.lookup k)
  | _ => .ok none

/-- JS property write `v[k] = x` in strict mode (both sources are modules):
writing on `null` or a primitive throws a TypeError; objects and arrays
store the field. -/
def jsSet (v : JSValue) (k : String) (x : JSValue) : Except String JSValue :=
  match v with
  | .obj fields => .ok (.obj (setField fields k x))
  | .arr es props => .ok (.arr es (setField props k x))
  | _ => .error "TypeError: cannot create property on a primitive value"

/-- JS truthiness of a value. -/
def jsTruthy : JSValue → Bool
  | .null => false
  | .bool b => b
  | .num n => n != 0
  | .str s => s != ""
  | .arr _ _ => true
  | .obj _ => true

/-- A value on which property assignment succeeds (object or array). -/
def objLike : JSValue → Bool
  | .obj _ => true
  | .arr _ _ => true
  | _ => false

/-- The defaulting steps of the classifier post-processing, on the value
`json` holds after the parse attempts:
`if (!json.title) json.title = fallback;`
`if (!json.category) json.category = 'misc';` — both run outside any
`try`, so a property access that throws propagates to the caller. -/
def classifyJson (transcription : String) (json : JSValue) : Except String JSValue :=
  match jsGet json "title" with
  | .error e => .error e
  | .ok t =>
    match (if (t.map jsTruthy).getD false then Except.ok json
           else jsSet json "title" (.str (fallbackTitle transcription))) with
    | .error e => .error e
    | .ok json1 =>
      match jsGet json1 "category" with
      | .error e => .error e
      | .ok c =>
        match (if (c.map jsTruthy).getD false then Except.ok json1
               else jsSet json1 "category" (.str "misc")) with
        | .error e => .error e
        | .ok json2 => .ok json2

/-- The classifier post-processing of `analyzeTranscription`
(lines 313–319 of `voice-note-raycast.js`, lines 142–146 of
`record-voice-task.ts`):

`json` starts as the first `JSON.parse` result if that parse succeeded
(`firstParse`), else as the re-parse of the first brace-delimited substring
if that recovery succeeded (`recovered`), else as `{}`; then the two
defaulting assignments of `classifyJson` run.  The parses themselves are
abstracted by their outcomes: `JSON.parse` is a platform primitive, and
e.g. the response text `"null"` yields `firstParse = some .null`, a
non-JSON text yields `firstParse = none`, and a successful re-parse of a
brace-delimited substring always yields an object. -/
def classifyPost (transcription : String) (firstParse recovered : Option JSValue) :
    Except String JSValue :=
  classifyJson transcription
    (match firstParse with
     | some v => v
     | none =>
       match recovered with
       | some v => v
       | none => .obj [])

/-- Scenario A's classifier extraction:
`{title:"Pay electric bill", category:"tasks", projectName:null,
sectionName:null, labels:[], priority:null, due_string:"tomorrow",
urls:[]}`. -/
def scenarioExtraction : Enriched :=
  { title := "Pay electric bill"
    description := none
    category := "tasks"
    projectName := none
    sectionName := none
    labels := []
    priority := none
    due_string := some "tomorrow"
    urls := [] }

/-- Scenario A's rule:
`{test: "(?i)bill", projectName: "Work", sectionName: "Upcoming bills",
labels: ["finance"], priority: 3}`. -/
def scenarioRule : Rule :=
  { test := "(?i)bill"
    projectName := some "Work"
    sectionName := some "Upcoming bills"
    labels := ["finance"]
    priority := some 3
    due_string := none }

/-- A taxonomy snapshot in which scenario A's project and section exist. -/
def scenarioRefs : Refs :=
  { projects := [⟨"6001", "Work"⟩]
    labels := [⟨"7001", "Voice"⟩, ⟨"7002", "finance"⟩]
    sections := [("6001", [⟨"8001", "Upcoming bills"⟩])] }

/-- Scenario A's transcript. -/
def scenarioTranscript : String := "Pay the electric bill tomorrow"

/-- The concatenation of the label arrays of the rules that fire
(specification device for describing the label accumulation of
`applyRules`). -/
def matchedRuleLabels (regexTest : String → String → Option Bool) (hay : String)
    (rules : List Rule) : List String :=
  ((rules.filter (ruleMatches regexTest hay)).map Rule.labels).flatten

/-- The highest score any section reaches under a scoring function
(0 when the list is empty). -/
def maxScore (f : TaxRef → Nat) (sections : List TaxRef) : Nat :=
  (sections.map f).foldr max 0

/-- The winner selection rule as the spec words it: the highest-scoring
section, ties broken by first-seen order, and no section at all when every
section scores zero. -/
def specWinner (f : TaxRef → Nat) (sections : List TaxRef) : Option String :=
  if maxScore f sections = 0 then none
  else (sections.find? (fun s => f s == maxScore f sections)).map TaxRef.id

/-- The claim's scoring rule read literally: a section gains its name's
length once per candidate text whose normalization contains the normalized
section name as a substring — with no non-emptiness requirement on the
normalized name. -/
def claimedSectionScore (candidates : List String) (name : String) : Nat :=
  name.length * candidates.countP (fun t => substrB (normalize name) (normalize t))

/-- An extraction whose label list carries a duplicate. -/
def dupLabelExtraction : Enriched :=
  { title := "t"
    description := none
    category := "tasks"
    projectName := none
    sectionName := none
    labels := ["a", "a"]
    priority := none
    due_string := none
    urls := [] }

/-- An extraction on which every overridable field is already truthy. -/
def fullExtraction : Enriched :=
  { title := "Send invoice"
    description := some "send the invoice to the client"
    category := "tasks"
    projectName := some "Home"
    sectionName := some "Errands"
    labels := ["billing"]
    priority := some 2
    due_string := some "friday"
    urls := ["https://example.com"] }

/-- A rule matching everything literal with a label contribution. -/
def labelRule : Rule :=
  { test := "invoice"
    projectName := some "Work"
    sectionName := some "Upcoming bills"
    labels := ["finance", "billing"]
    priority := some 4
    due_string := some "tomorrow" }

/- ------------------------------------------------------------------ -/
/- Lemmas about first-occurrence deduplication (`jsSetDedup`).         -/
/- ------------------------------------------------------------------ -/

theorem foldl_insertUnique (l : List String) :
    ∀ acc : List String, l.foldl insertUnique acc = acc ++ newElems acc l := by
  induction l with
  | nil => intro acc; simp [newElems]
  | cons x rest ih =>
    intro acc
    by_cases h : x ∈ acc
    · simp [List.foldl, insertUnique, newElems, h, ih]
    · simp only [List.foldl, insertUnique, if_neg h, newElems, ih]
      simp [List.append_assoc]

theorem jsSetDedup_eq_newElems (l : List String) : jsSetDedup l = newElems [] l := by
  simpa [jsSetDedup] using foldl_insertUnique l []

theorem mem_newElems (x : String) :
    ∀ (l acc : List String), x ∈ newElems acc l ↔ x ∈ l ∧ x ∉ acc := by
  intro l
  induction l with
  | nil => intro acc; simp [newElems]
  | cons y rest ih =>
    intro acc
    by_cases h : y ∈ acc
    · rw [newElems, if_pos h, ih]
      constructor
      · exact fun ⟨hr, hna⟩ => ⟨List.mem_cons_of_mem _ hr, hna⟩
      · rintro ⟨hyr, hna⟩
        rcases List.mem_cons.mp hyr with rfl | hr
        · exact absurd h hna
        · exact ⟨hr, hna⟩
    · rw [newElems, if_neg h, List.mem_cons, ih]
      simp only [List.mem_cons, List.mem_append, List.mem_singleton]
      by_cases hxy : x = y
      · subst hxy; tauto
      · tauto

theorem newElems_nodup : ∀ (l acc : List String), (newElems acc l).Nodup := by
  intro l
  induction l with
  | nil => intro acc; simp [newElems]
  | cons y rest ih =>
    intro acc
    by_cases h : y ∈ acc
    · rw [newElems, if_pos h]; exact ih acc
    · rw [newElems, if_neg h]
      refine List.nodup_cons.mpr ⟨?_, ih _⟩
      intro hy
      have := (mem_newElems y rest (acc ++ [y])).mp hy
      exact this.2 (by simp)

theorem newElems_append (b : List String) :
    ∀ (a acc : List String),
      newElems acc (a ++ b) = newElems acc a ++ newElems (acc ++ newElems acc a) b := by
  intro a
  induction a with
  | nil => intro acc; simp [newElems]
  | cons x a' ih =>
    intro acc
    by_cases h : x ∈ acc
    · simp only [List.cons_append, newElems, if_pos h]
      exact ih acc
    · simp only [List.cons_append, newElems, if_neg h, List.append_eq, ih (acc ++ [x]),
        List.append_assoc, List.singleton_append, List.nil_append]

theorem newElems_of_disjoint :
    ∀ (l acc : List String), l.Nodup → (∀ x ∈ l, x ∉ acc) → newElems acc l = l := by
  intro l
  induction l with
  | nil => intro acc _ _; simp [newElems]
  | cons y rest ih =>
    intro acc hnd hdisj
    have hy : y ∉ acc := hdisj y (by simp)
    rw [newElems, if_neg hy]
    congr 1
    refine ih _ (List.nodup_cons.mp hnd).2 ?_
    intro x hx
    simp only [List.mem_append, List.mem_singleton, not_or]
    exact ⟨hdisj x (List.mem_cons_of_mem _ hx),
      fun hxy => (List.nodup_cons.mp hnd).1 (hxy ▸ hx)⟩

theorem jsSetDedup_nodup (l : List String) : (jsSetDedup l).Nodup := by
  rw [jsSetDedup_eq_newElems]; exact newElems_nodup l []

theorem mem_jsSetDedup (x : String) (l : List String) : x ∈ jsSetDedup l ↔ x ∈ l := by
  rw [jsSetDedup_eq_newElems, mem_newElems]
  simp

theorem jsSetDedup_append_left (a b : List String) :
    jsSetDedup (jsSetDedup a ++ b) = jsSetDedup (a ++ b) := by
  have hdd : newElems [] (jsSetDedup a) = jsSetDedup a :=
    newElems_of_disjoint (jsSetDedup a) [] (jsSetDedup_nodup a) (by simp)
  rw [jsSetDedup_eq_newElems, newElems_append, hdd, List.nil_append,
    jsSetDedup_eq_newElems (a ++ b), newElems_append, ← jsSetDedup_eq_newElems,
    List.nil_append]

/- ------------------------------------------------------------------ -/
/- Lemmas about `applyRules`.                                          -/
/- ------------------------------------------------------------------ -/

theorem applyRuleStep_of_not_matched (rt : String → String → Option Bool) (hay : String)
    (next : Enriched) (r : Rule) (h : ruleMatches rt hay r = false) :
    applyRuleStep rt hay next r = next := by
  simp [applyRuleStep, h]

theorem applyRuleStep_title (rt : String → String → Option Bool) (hay : String)
    (next : Enriched) (r : Rule) : (applyRuleStep rt hay next r).title = next.title := by
  unfold applyRuleStep applyRuleFields; split <;> rfl

theorem applyRuleStep_description (rt : String → String → Option Bool) (hay : String)
    (next : Enriched) (r : Rule) :
    (applyRuleStep rt hay next r).description = next.description := by
  unfold applyRuleStep applyRuleFields; split <;> rfl

theorem applyRuleStep_category (rt : String → String → Option Bool) (hay : String)
    (next : Enriched) (r : Rule) : (applyRuleStep rt hay next r).category = next.category := by
  unfold applyRuleStep applyRuleFields; split <;> rfl

theorem applyRuleStep_urls (rt : String → String → Option Bool) (hay : String)
    (next : Enriched) (r : Rule) : (applyRuleStep rt hay next r).urls = next.urls := by
  unfold applyRuleStep applyRuleFields; split <;> rfl

theorem applyRuleStep_projectName_of_truthy (rt : String → String → Option Bool) (hay : String)
    (next : Enriched) (r : Rule) (h : strTruthy next.projectName = true) :
    (applyRuleStep rt hay next r).projectName = next.projectName := by
  unfold applyRuleStep applyRuleFields; split <;> simp [h]

theorem applyRuleStep_sectionName_of_truthy (rt : String → String → Option Bool) (hay : String)
    (next : Enriched) (r : Rule) (h : strTruthy next.sectionName = true) :
    (applyRuleStep rt hay next r).sectionName = next.sectionName := by
  unfold applyRuleStep applyRuleFields; split <;> simp [h]

theorem applyRuleStep_priority_of_truthy (rt : String → String → Option Bool) (hay : String)
    (next : Enriched) (r : Rule) (h : intTruthy next.priority = true) :
    (applyRuleStep rt hay next r).priority = next.priority := by
  unfold applyRuleStep applyRuleFields; split <;> simp [h]

theorem applyRuleStep_due_of_truthy (rt : String → String → Option Bool) (hay : String)
    (next : Enriched) (r : Rule) (h : strTruthy next.due_string = true) :
    (applyRuleStep rt hay next r).due_string = next.due_string := by
  unfold applyRuleStep applyRuleFields; split <;> simp [h]

theorem applyRules_loop_frame (rt : String → String → Option Bool) (hay : String) :
    ∀ (rules : List Rule) (next : Enriched),
      (rules.foldl (applyRuleStep rt hay) next).title = next.title ∧
      (rules.foldl (applyRuleStep rt hay) next).description = next.description ∧
      (rules.foldl (applyRuleStep rt hay) next).category = next.category ∧
      (rules.foldl (applyRuleStep rt hay) next).urls = next.urls := by
  intro rules
  induction rules with
  | nil => intro next; simp
  | cons r rest ih =>
    intro next
    have h := ih (applyRuleStep rt hay next r)
    simp only [List.foldl_cons]
    exact ⟨h.1.trans (applyRuleStep_title ..), h.2.1.trans (applyRuleStep_description ..),
      h.2.2.1.trans (applyRuleStep_category ..), h.2.2.2.trans (applyRuleStep_urls ..)⟩

theorem applyRules_loop_projectName (rt : String → String → Option Bool) (hay : String) :
    ∀ (rules : List Rule) (next : Enriched), strTruthy next.projectName = true →
      (rules.foldl (applyRuleStep rt hay) next).projectName = next.projectName := by
  intro rules
  induction rules with
  | nil => intro next _; simp
  | cons r rest ih =>
    intro next h
    have hstep := applyRuleStep_projectName_of_truthy rt hay next r h
    simp only [List.foldl_cons]
    rw [ih (applyRuleStep rt hay next r) (by rw [hstep]; exact h), hstep]

theorem applyRules_loop_sectionName (rt : String → String → Option Bool) (hay : String) :
    ∀ (rules : List Rule) (next : Enriched), strTruthy next.sectionName = true →
      (rules.foldl (applyRuleStep rt hay) next).sectionName = next.sectionName := by
  intro rules
  induction rules with
  | nil => intro next _; simp
  | cons r rest ih =>
    intro next h
    have hstep := applyRuleStep_sectionName_of_truthy rt hay next r h
    simp only [List.foldl_cons]
    rw [ih (applyRuleStep rt hay next r) (by rw [hstep]; exact h), hstep]

theorem applyRules_loop_priority (rt : String → String → Option Bool) (hay : String) :
    ∀ (rules : List Rule) (next : Enriched), intTruthy next.priority = true →
      (rules.foldl (applyRuleStep rt hay) next).priority = next.priority := by
  intro rules
  induction rules with
  | nil => intro next _; simp
  | cons r rest ih =>
    intro next h
    have hstep := applyRuleStep_priority_of_truthy rt hay next r h
    simp only [List.foldl_cons]
    rw [ih (applyRuleStep rt hay next r) (by rw [hstep]; exact h), hstep]

theorem applyRules_loop_due (rt : String → String → Option Bool) (hay : String) :
    ∀ (rules : List Rule) (next : Enriched), strTruthy next.due_string = true →
      (rules.foldl (applyRuleStep rt hay) next).due_string = next.due_string := by
  intro rules
  induction rules with
  | nil => intro next _; simp
  | cons r rest ih =>
    intro next h
    have hstep := applyRuleStep_due_of_truthy rt hay next r h
    simp only [List.foldl_cons]
    rw [ih (applyRuleStep rt hay next r) (by rw [hstep]; exact h), hstep]

theorem applyRuleFields_labels (next : Enriched) (r : Rule) :
    (applyRuleFields next r).labels =
      if r.labels.isEmpty then next.labels else jsSetDedup (next.labels ++ r.labels) := rfl

theorem applyRules_loop_labels (rt : String → String → Option Bool) (hay : String) :
    ∀ (rules : List Rule) (next : Enriched),
      (rules.foldl (applyRuleStep rt hay) next).labels =
        if matchedRuleLabels rt hay rules = [] then next.labels
        else jsSetDedup (next.labels ++ matchedRuleLabels rt hay rules) := by
  intro rules
  induction rules with
  | nil => intro next; simp [matchedRuleLabels]
  | cons r rest ih =>
    intro next
    by_cases hm : ruleMatches rt hay r
    · have hcons : matchedRuleLabels rt hay (r :: rest) =
          r.labels ++ matchedRuleLabels rt hay rest := by
        simp [matchedRuleLabels, List.filter_cons, hm]
      simp only [List.foldl_cons, applyRuleStep, if_pos hm]
      rw [ih (applyRuleFields next r), hcons, applyRuleFields_labels]
      by_cases hL : r.labels.isEmpty
      · have : r.labels = [] := List.isEmpty_iff.mp hL
        simp [this, hL]
      · have hLne : r.labels ≠ [] := fun h => hL (by simp [h])
        rw [if_neg hL]
        by_cases hM : matchedRuleLabels rt hay rest = []
        · simp [hM, hLne]
        · have hne : r.labels ++ matchedRuleLabels rt hay rest ≠ [] := by
            simp [hLne]
          rw [if_neg hM, if_neg hne, jsSetDedup_append_left, List.append_assoc]
    · have hskip : applyRuleStep rt hay next r = next :=
        applyRuleStep_of_not_matched rt hay next r (by simpa using hm)
      have hcons : matchedRuleLabels rt hay (r :: rest) = matchedRuleLabels rt hay rest := by
        simp [matchedRuleLabels, List.filter_cons, Bool.eq_false_iff.mpr hm]
      simp only [List.foldl_cons, hskip, hcons]
      exact ih next

/- ------------------------------------------------------------------ -/
/- Lemmas about the section-guess scoring.                             -/
/- ------------------------------------------------------------------ -/

theorem sectionScore_loop (name : String) :
    ∀ (candidates : List String) (acc : Nat),
      candidates.foldl (fun sc t => if containsWord t name then sc + name.length else sc) acc =
        acc + name.length * candidates.countP (fun t => containsWord t name) := by
  intro candidates
  induction candidates with
  | nil => intro acc; simp
  | cons t rest ih =>
    intro acc
    by_cases h : containsWord t name
    · simp only [List.foldl_cons, if_pos h, ih, List.countP_cons, h, if_pos]
      rw [Nat.mul_add, Nat.mul_one]
      omega
    · simp only [List.foldl_cons, if_neg h, ih, List.countP_cons]
      simp [h]

theorem sectionScore_eq_mul (candidates : List String) (name : String) :
    sectionScore candidates name =
      name.length * candidates.countP (fun t => containsWord t name) := by
  simpa [sectionScore] using sectionScore_loop name candidates 0

theorem maxScore_cons (f : TaxRef → Nat) (sec : TaxRef) (rest : List TaxRef) :
    maxScore f (sec :: rest) = max (f sec) (maxScore f rest) := by
  simp [maxScore]

theorem find?_cons_true {α : Type} {p : α → Bool} {a : α} (l : List α) (h : p a = true) :
    (a :: l).find? p = some a := by
  simp [List.find?, h]

theorem find?_cons_false {α : Type} {p : α → Bool} {a : α} (l : List α) (h : p a = false) :
    (a :: l).find? p = l.find? p := by
  simp [List.find?, h]

theorem guessLoop_spec (candidates : List String) :
    ∀ (sections : List TaxRef) (accId : Option String) (accSc : Nat),
      guessLoop candidates (accId, accSc) sections =
        ((if accSc < maxScore (fun sec => sectionScore candidates sec.name) sections
          then (sections.find? (fun s =>
            sectionScore candidates s.name ==
              maxScore (fun sec => sectionScore candidates sec.name) sections)).map TaxRef.id
          else accId),
         max accSc (maxScore (fun sec => sectionScore candidates sec.name) sections)) := by
  intro sections
  induction sections with
  | nil =>
    intro accId accSc
    simp [guessLoop, maxScore]
  | cons sec rest ih =>
    intro accId accSc
    rw [show guessLoop candidates (accId, accSc) (sec :: rest) =
        (if accSc < sectionScore candidates sec.name
         then guessLoop candidates (some sec.id, sectionScore candidates sec.name) rest
         else guessLoop candidates (accId, accSc) rest) from rfl]
    rw [maxScore_cons]
    by_cases h1 : accSc < sectionScore candidates sec.name
    · rw [if_pos h1, ih]
      by_cases h2 : sectionScore candidates sec.name <
          maxScore (fun s => sectionScore candidates s.name) rest
      · have e1 : max (sectionScore candidates sec.name)
            (maxScore (fun s => sectionScore candidates s.name) rest) =
              maxScore (fun s => sectionScore candidates s.name) rest := by omega
        rw [e1]
        have e2 : accSc < maxScore (fun s => sectionScore candidates s.name) rest := by omega
        rw [if_pos h2, if_pos e2]
        rw [@find?_cons_false TaxRef
          (fun s => sectionScore candidates s.name ==
            maxScore (fun s => sectionScore candidates s.name) rest)
          sec rest (beq_false_of_ne (by omega))]
        have e4 : max accSc (maxScore (fun s => sectionScore candidates s.name) rest) =
            max (sectionScore candidates sec.name)
              (maxScore (fun s => sectionScore candidates s.name) rest) := by omega
        rw [e4, e1]
      · have e1 : max (sectionScore candidates sec.name)
            (maxScore (fun s => sectionScore candidates s.name) rest) =
              sectionScore candidates sec.name := by omega
        rw [e1]
        rw [if_neg h2, if_pos h1]
        rw [@find?_cons_true TaxRef
          (fun s => sectionScore candidates s.name == sectionScore candidates sec.name)
          sec rest (by simp)]
        have e4 : max accSc (sectionScore candidates sec.name) =
            sectionScore candidates sec.name := by omega
        rw [e4]
        rfl
    · rw [if_neg h1, ih]
      by_cases h3 : accSc < maxScore (fun s => sectionScore candidates s.name) rest
      · have e1 : max (sectionScore candidates sec.name)
            (maxScore (fun s => sectionScore candidates s.name) rest) =
              maxScore (fun s => sectionScore candidates s.name) rest := by omega
        rw [e1]
        rw [if_pos h3]
        rw [@find?_cons_false TaxRef
          (fun s => sectionScore candidates s.name ==
            maxScore (fun s => sectionScore candidates s.name) rest)
          sec rest (beq_false_of_ne (by omega))]
        have e4 : max accSc (maxScore (fun s => sectionScore candidates s.name) rest) =
            maxScore (fun s => sectionScore candidates s.name) rest := by omega
        rw [e4, if_pos h3]
      · have e4 : ¬ accSc < max (sectionScore candidates sec.name)
            (maxScore (fun s => sectionScore candidates s.name) rest) := by omega
        rw [if_neg h3, if_neg e4]
        have e5 : max accSc (max (sectionScore candidates sec.name)
            (maxScore (fun s => sectionScore candidates s.name) rest)) =
              max accSc (maxScore (fun s => sectionScore candidates s.name) rest) := by omega
        rw [e5]

theorem guessCore_eq_specWinner (candidates : List String) (sections : List TaxRef) :
    guessCore candidates sections =
      specWinner (fun sec => sectionScore candidates sec.name) sections := by
  cases sections with
  | nil => simp [guessCore, specWinner, maxScore]
  | cons sec rest =>
    rw [guessCore, if_neg (by simp)]
    rw [guessLoop_spec]
    simp only [specWinner]
    by_cases h : maxScore (fun sec => sectionScore candidates sec.name) (sec :: rest) = 0
    · rw [if_pos h]
      rw [if_neg (by omega)]
    · rw [if_neg h]
      rw [if_pos (by omega)]

/- ------------------------------------------------------------------ -/
/- Lemmas about association lists (sections object, JSON fields).      -/
/- ------------------------------------------------------------------ -/

theorem lookup_append_of_none {α : Type} (k : String) (v : α) :
    ∀ (l : List (String × α)), l.lookup k = none → (l ++ [(k, v)]).lookup k = some v := by
  intro l
  induction l with
  | nil => intro _; simp [List.lookup]
  | cons p rest ih =>
    intro h
    rcases p with ⟨k', v'⟩
    by_cases hk : k == k'
    · simp [List.lookup, hk] at h
    · simp only [List.cons_append, List.lookup, hk]
      exact ih (by simpa [List.lookup, hk] using h)

theorem lookup_setField_same (k : String) (v : JSValue) :
    ∀ (fields : List (String × JSValue)), (setField fields k v).lookup k = some v := by
  intro fields
  induction fields with
  | nil => simp [setField, List.lookup]
  | cons p rest ih =>
    rcases p with ⟨k', v'⟩
    by_cases hk : k' = k
    · simp [setField, hk, List.lookup]
    · have hbeq : (k == k') = false := beq_false_of_ne (Ne.symm hk)
      simp only [setField, if_neg hk, List.lookup, hbeq]
      exact ih

theorem lookup_setField_other (k k' : String) (v : JSValue) (hne : k' ≠ k) :
    ∀ (fields : List (String × JSValue)),
      (setField fields k v).lookup k' = fields.lookup k' := by
  intro fields
  induction fields with
  | nil => simp [setField, List.lookup, beq_false_of_ne hne]
  | cons p rest ih =>
    rcases p with ⟨k0, v0⟩
    by_cases hk : k0 = k
    · subst hk
      simp [setField, List.lookup, beq_false_of_ne hne]
    · simp only [setField, if_neg hk, List.lookup]
      cases hbeq : (k' == k0)
      · exact ih
      · rfl

/- ------------------------------------------------------------------ -/
/- Lemmas about the clipboard wait loop.                               -/
/- ------------------------------------------------------------------ -/

theorem waitLoop_all_sentinel (sentinel : String) (reads : Nat → String)
    (h : ∀ i, reads i = sentinel) :
    ∀ (fuel i : Nat) (last : String), waitLoop sentinel reads fuel i last = "" := by
  intro fuel
  induction fuel with
  | zero => intro i last; rfl
  | succ n ih =>
    intro i last
    rw [waitLoop, if_neg]
    · exact ih (i + 1) (reads i)
    · rintro ⟨-, hne, -, -⟩
      exact hne (h i)

theorem waitLoop_len (sentinel : String) (reads : Nat → String) :
    ∀ (fuel i : Nat) (last : String),
      waitLoop sentinel reads fuel i last = "" ∨
        8 ≤ (waitLoop sentinel reads fuel i last).length := by
  intro fuel
  induction fuel with
  | zero => intro i last; left; rfl
  | succ n ih =>
    intro i last
    rw [waitLoop]
    split
    · rename_i hacc
      show (if reads (i + 1) ≠ "" ∧ (reads i).length ≤ (reads (i + 1)).length
            then reads (i + 1) else reads i) = "" ∨
          8 ≤ (if reads (i + 1) ≠ "" ∧ (reads i).length ≤ (reads (i + 1)).length
            then reads (i + 1) else reads i).length
      split
      · rename_i h2
        right
        exact le_trans hacc.2.2.2 h2.2
      · right
        exact hacc.2.2.2
    · exact ih (i + 1) (reads i)

/- ------------------------------------------------------------------ -/
/- Lemmas about the classifier post-processing.                        -/
/- ------------------------------------------------------------------ -/

theorem truthyOpt_some {o : Option JSValue} (h : (o.map jsTruthy).getD false = true) :
    ∃ v, o = some v ∧ jsTruthy v = true := by
  cases o with
  | none => simp at h
  | some v => exact ⟨v, rfl, by simpa using h⟩

theorem classifyJson_generic (transcription : String)
    (rebuild : List (String × JSValue) → JSValue)
    (hget : ∀ f k, jsGet (rebuild f) k = .ok (f.lookup k))
    (hset : ∀ f k v, jsSet (rebuild f) k v = .ok (rebuild (setField f k v)))
    (fields : List (String × JSValue)) :
    ∃ g : List (String × JSValue),
      classifyJson transcription (rebuild fields) = .ok (rebuild g) ∧
      (∃ tv, g.lookup "title" = some tv ∧
        (jsTruthy tv = true ∨ tv = .str (fallbackTitle transcription))) ∧
      (∃ cv, g.lookup "category" = some cv ∧ jsTruthy cv = true) := by
  by_cases ht : (((fields.lookup "title").map jsTruthy).getD false) = true
  · obtain ⟨tv, htv, htr⟩ := truthyOpt_some ht
    by_cases hc : (((fields.lookup "category").map jsTruthy).getD false) = true
    · obtain ⟨cv, hcv, hcr⟩ := truthyOpt_some hc
      refine ⟨fields, ?_, ⟨tv, htv, Or.inl htr⟩, ⟨cv, hcv, hcr⟩⟩
      simp [classifyJson, hget, ht, hc]
    · have hc' : (((fields.lookup "category").map jsTruthy).getD false) = false := by
        simpa using hc
      refine ⟨setField fields "category" (.str "misc"), ?_, ?_, ?_⟩
      · simp [classifyJson, hget, hset, ht, hc']
      · exact ⟨tv, by
          rw [lookup_setField_other "category" "title" (.str "misc") (by decide) fields]
          exact htv, Or.inl htr⟩
      · exact ⟨.str "misc", lookup_setField_same "category" (.str "misc") fields, rfl⟩
  · have ht' : (((fields.lookup "title").map jsTruthy).getD false) = false := by
      simpa using ht
    have hcat : ((setField fields "title" (.str (fallbackTitle transcription))).lookup "category")
        = fields.lookup "category" :=
      lookup_setField_other "title" "category" (.str (fallbackTitle transcription))
        (by decide) fields
    by_cases hc : (((fields.lookup "category").map jsTruthy).getD false) = true
    · obtain ⟨cv, hcv, hcr⟩ := truthyOpt_some hc
      refine ⟨setField fields "title" (.str (fallbackTitle transcription)), ?_, ?_, ?_⟩
      · simp [classifyJson, hget, hset, ht', hcat, hc]
      · exact ⟨.str (fallbackTitle transcription),
          lookup_setField_same "title" (.str (fallbackTitle transcription)) fields, Or.inr rfl⟩
      · exact ⟨cv, hcat.trans hcv, hcr⟩
    · have hc' : (((fields.lookup "category").map jsTruthy).getD false) = false := by
        simpa using hc
      refine ⟨setField (setField fields "title" (.str (fallbackTitle transcription)))
        "category" (.str "misc"), ?_, ?_, ?_⟩
      · simp [classifyJson, hget, hset, ht', hcat, hc']
      · exact ⟨.str (fallbackTitle transcription), by
          rw [lookup_setField_other "category" "title" (.str "misc") (by decide)
            (setField fields "title" (.str (fallbackTitle transcription)))]
          exact lookup_setField_same "title" (.str (fallbackTitle transcription)) fields,
          Or.inr rfl⟩
      · exact ⟨.str "misc", lookup_setField_same "category" (.str "misc") _, rfl⟩

theorem classifyJson_objLike (transcription : String) (json : JSValue)
    (h : objLike json = true) :
    ∃ j, classifyJson transcription json = .ok j ∧
      (∃ tv, jsGet j "title" = .ok (some tv) ∧
        (jsTruthy tv = true ∨ tv = .str (fallbackTitle transcription))) ∧
      (∃ cv, jsGet j "category" = .ok (some cv) ∧ jsTruthy cv = true) := by
  cases json with
  | obj fields =>
    obtain ⟨g, hg, ⟨tv, htv, htr⟩, ⟨cv, hcv, hcr⟩⟩ :=
      classifyJson_generic transcription JSValue.obj (fun _ _ => rfl) (fun _ _ _ => rfl) fields
    exact ⟨.obj g, hg, ⟨tv, by simpa [jsGet] using htv, htr⟩,
      ⟨cv, by simpa [jsGet] using hcv, hcr⟩⟩
  | arr es props =>
    obtain ⟨g, hg, ⟨tv, htv, htr⟩, ⟨cv, hcv, hcr⟩⟩ :=
      classifyJson_generic transcription (JSValue.arr es) (fun _ _ => rfl) (fun _ _ _ => rfl) props
    exact ⟨.arr es g, hg, ⟨tv, by simpa [jsGet] using htv, htr⟩,
      ⟨cv, by simpa [jsGet] using hcv, hcr⟩⟩
  | null => simp [objLike] at h
  | bool b => simp [objLike] at h
  | num n => simp [objLike] at h
  | str s => simp [objLike] at h

/- ------------------------------------------------------------------ -/
/- The claims.                                                         -/
/- ------------------------------------------------------------------ -/

/-- Claim C1 (the code's actual behaviour at scenario A): JavaScript's
`new RegExp("(?i)bill")` throws a SyntaxError — ECMA-262 has no Perl-style
inline flag group, `(?` must be followed by `:`, `=`, `!` or `<` — so
`applyRules` silently skips the scenario rule and the extraction is
returned unchanged.  The resulting task body therefore carries labels
`["Voice"]` only, no project, no section and no priority, against the
claimed `{"Voice","finance"}` / `Work` / `Upcoming bills` / `3`.  With a
pattern JavaScript accepts (`"bill"`), the very same inputs produce exactly
the claimed body, confirming the regex compilation as the single point of
failure. -/
theorem scenarioA_code_behavior :
    applyRules jsRegexTest scenarioTranscript scenarioExtraction [scenarioRule] =
      scenarioExtraction ∧
    buildTaskBodyJs scenarioTranscript
        (applyRules jsRegexTest scenarioTranscript scenarioExtraction [scenarioRule])
        none scenarioRefs =
      { content := "Pay electric bill"
        description := scenarioTranscript
        project_id := none
        section_id := none
        labels := some ["Voice"]
        due_string := some "tomorrow"
        priority := none } ∧
    buildTaskBodyJs scenarioTranscript
        (applyRules jsRegexTest scenarioTranscript scenarioExtraction
          [{ scenarioRule with test := "bill" }])
        none scenarioRefs =
      { content := "Pay electric bill"
        description := scenarioTranscript
        project_id := some "6001"
        section_id := some "8001"
        labels := some ["Voice", "finance"]
        due_string := some "tomorrow"
        priority := some 3 } := by
  refine ⟨by decide, by decide, by decide⟩

/-- Claim C2, counterexample: when no matching rule contributes a
non-empty label array, `applyRules` keeps the extraction's label list
as-is, duplicates included — it is not the deduplicated union the claim
describes. -/
theorem applyRules_labels_counterexample :
    (applyRules jsRegexTest "x" dupLabelExtraction []).labels = ["a", "a"] ∧
    jsSetDedup (dupLabelExtraction.labels ++
      matchedRuleLabels jsRegexTest (hayOf "x" dupLabelExtraction) []) = ["a"] ∧
    (["a", "a"] : List String) ≠ ["a"] := by
  refine ⟨by decide, by decide, by decide⟩

/-- Claim C2 (amended): `applyRules` never overwrites a truthy field of the
extraction (projectName, sectionName, priority, due_string); its label list
is the first-occurrence-deduplicated union of the extraction's labels with
the label arrays of every matching rule whenever at least one matching rule
carries a non-empty label array, and is the extraction's label list
unchanged (not deduplicated) otherwise. -/
theorem applyRules_no_overwrite (rt : String → String → Option Bool) (transcription : String)
    (E : Enriched) (rules : List Rule) :
    (strTruthy E.projectName = true →
      (applyRules rt transcription E rules).projectName = E.projectName) ∧
    (strTruthy E.sectionName = true →
      (applyRules rt transcription E rules).sectionName = E.sectionName) ∧
    (intTruthy E.priority = true →
      (applyRules rt transcription E rules).priority = E.priority) ∧
    (strTruthy E.due_string = true →
      (applyRules rt transcription E rules).due_string = E.due_string) ∧
    (applyRules rt transcription E rules).labels =
      (if matchedRuleLabels rt (hayOf transcription E) rules = [] then E.labels
       else jsSetDedup (E.labels ++ matchedRuleLabels rt (hayOf transcription E) rules)) :=
  ⟨fun h => applyRules_loop_projectName rt (hayOf transcription E) rules E h,
   fun h => applyRules_loop_sectionName rt (hayOf transcription E) rules E h,
   fun h => applyRules_loop_priority rt (hayOf transcription E) rules E h,
   fun h => applyRules_loop_due rt (hayOf transcription E) rules E h,
   applyRules_loop_labels rt (hayOf transcription E) rules E⟩

/-- Witness for `applyRules_no_overwrite` at a concrete extraction with
every field truthy and a matching, label-contributing rule. -/
theorem applyRules_no_overwrite_witness :
    (applyRules jsRegexTest "x" fullExtraction [labelRule]).projectName =
      fullExtraction.projectName ∧
    (applyRules jsRegexTest "x" fullExtraction [labelRule]).sectionName =
      fullExtraction.sectionName ∧
    (applyRules jsRegexTest "x" fullExtraction [labelRule]).priority =
      fullExtraction.priority ∧
    (applyRules jsRegexTest "x" fullExtraction [labelRule]).due_string =
      fullExtraction.due_string ∧
    (applyRules jsRegexTest "x" fullExtraction [labelRule]).labels =
      (if matchedRuleLabels jsRegexTest (hayOf "x" fullExtraction) [labelRule] = []
       then fullExtraction.labels
       else jsSetDedup (fullExtraction.labels ++
         matchedRuleLabels jsRegexTest (hayOf "x" fullExtraction) [labelRule])) := by
  have h := applyRules_no_overwrite jsRegexTest "x" fullExtraction [labelRule]
  exact ⟨h.1 (by decide), h.2.1 (by decide), h.2.2.1 (by decide),
    h.2.2.2.1 (by decide), h.2.2.2.2⟩

/-- Claim C3, counterexample: the deduplication of the submitted label set
is the exact-string deduplication of a JS `Set`, not case-insensitive:
with classifier labels `["voice"]` the submitted set is
`["Voice", "voice"]`, two names differing only in letter case. -/
theorem desiredLabels_counterexample :
    desiredLabels ["voice"] = ["Voice", "voice"] ∧
    jsToLower "Voice" = jsToLower "voice" ∧ ("Voice" : String) ≠ "voice" := by
  refine ⟨by decide, by decide, by decide⟩

/-- Claim C3 (amended): the submitted label set always contains the
sentinel "Voice", contains no exact-string duplicate (first occurrence
order is kept), consists only of "Voice" and classifier/rule labels, and
contains every non-empty classifier/rule label; the deduplication is
case-sensitive. -/
theorem desiredLabels_spec (labels : List String) :
    "Voice" ∈ desiredLabels labels ∧
    (desiredLabels labels).Nodup ∧
    (∀ x ∈ desiredLabels labels, x = "Voice" ∨ x ∈ labels) ∧
    (∀ x ∈ labels, x ≠ "" → x ∈ desiredLabels labels) := by
  refine ⟨?_, jsSetDedup_nodup _, ?_, ?_⟩
  · rw [desiredLabels, mem_jsSetDedup]
    exact List.mem_filter.mpr ⟨List.mem_cons_self _ _, by decide⟩
  · intro x hx
    rw [desiredLabels, mem_jsSetDedup] at hx
    have := List.mem_filter.mp hx
    rcases List.mem_cons.mp this.1 with h | h
    · exact Or.inl h
    · exact Or.inr h
  · intro x hx hne
    rw [desiredLabels, mem_jsSetDedup]
    exact List.mem_filter.mpr ⟨List.mem_cons_of_mem _ hx, by simpa using hne⟩

/-- Witness for `desiredLabels_spec` at the concrete label list
`["finance"]`. -/
theorem desiredLabels_spec_witness :
    "Voice" ∈ desiredLabels ["finance"] ∧ "finance" ∈ desiredLabels ["finance"] := by
  have h := desiredLabels_spec ["finance"]
  exact ⟨h.1, h.2.2.2 "finance" (by decide) (by decide)⟩

/-- Claim C4, counterexample: the response text `"null"` is valid JSON, so
the first `JSON.parse` succeeds with `null`; the defaulting step
`if (!json.title)` then reads a property of `null` and throws a TypeError
that escapes `analyzeTranscription` — the post-processing is not
throw-free for every model response text. -/
theorem classifyPost_counterexample :
    classifyPost scenarioTranscript (some .null) none =
      .error "TypeError: cannot read properties of null" := rfl

/-- Claim C4 (amended): for every transcript and parse outcome whose
selected value is an object or array — which covers every malformed text
(parse failure), every object response, and every brace-recovery result,
but not a response text that is a valid JSON primitive such as `"null"` —
the post-processing never throws, the result's `category` is truthy
(original or the "misc" fallback), and its `title` is either the truthy
original or exactly the transcript's first line capped at 120 characters. -/
theorem classifyPost_total (transcription : String) (firstParse recovered : Option JSValue)
    (h1 : ∀ v, firstParse = some v → objLike v = true)
    (h2 : firstParse = none → ∀ v, recovered = some v → objLike v = true) :
    ∃ j, classifyPost transcription firstParse recovered = .ok j ∧
      (∃ tv, jsGet j "title" = .ok (some tv) ∧
        (jsTruthy tv = true ∨ tv = .str (fallbackTitle transcription))) ∧
      (∃ cv, jsGet j "category" = .ok (some cv) ∧ jsTruthy cv = true) := by
  rcases firstParse with _ | v
  · rcases recovered with _ | w
    · exact classifyJson_objLike transcription (.obj []) rfl
    · exact classifyJson_objLike transcription w (h2 rfl w rfl)
  · exact classifyJson_objLike transcription v (h1 v rfl)

/-- Witness for `classifyPost_total`: a garbage response (both parses
fail) on a concrete transcript. -/
theorem classifyPost_total_witness :
    ∃ j, classifyPost scenarioTranscript none none = .ok j ∧
      (∃ tv, jsGet j "title" = .ok (some tv) ∧
        (jsTruthy tv = true ∨ tv = .str (fallbackTitle scenarioTranscript))) ∧
      (∃ cv, jsGet j "category" = .ok (some cv) ∧ jsTruthy cv = true) :=
  classifyPost_total scenarioTranscript none none
    (fun v h => by cases h) (fun _ v h => by cases h)

/-- Claim C5, counterexample: read literally, the claimed scoring gives a
section whose name normalizes to the empty string (here `"!!!"`) a
positive score against every candidate text — the empty string is a
substring of everything — so the claimed winner is that section; the code
requires a non-empty normalized name (`containsWord` returns false) and
returns no section. -/
theorem guessSection_counterexample :
    guessCore ["hello"] [⟨"s1", "!!!"⟩] = none ∧
    specWinner (fun sec => claimedSectionScore ["hello"] sec.name) [⟨"s1", "!!!"⟩] =
      some "s1" := by
  refine ⟨by decide, by decide⟩

/-- Claim C5 (amended): the section guess equals the spec's selection rule
— highest cumulative score, `+name.length` per candidate text containing
the normalized name, ties to the first section, none on an all-zero score —
with the one qualification that a match additionally requires the
normalized section name (and the normalized candidate) to be non-empty, as
`containsWord` demands; consequently a section wins only if some candidate
text `containsWord` its name. -/
theorem guessSection_spec (candidates : List String) (sections : List TaxRef) :
    guessCore candidates sections =
      specWinner (fun sec => sec.name.length *
        candidates.countP (fun t => containsWord t sec.name)) sections ∧
    (∀ i, guessCore candidates sections = some i →
      ∃ sec ∈ sections, sec.id = i ∧ ∃ t ∈ candidates, containsWord t sec.name = true) := by
  have hfun : (fun sec => sectionScore candidates sec.name) =
      (fun sec : TaxRef => sec.name.length *
        candidates.countP (fun t => containsWord t sec.name)) :=
    funext fun sec => sectionScore_eq_mul candidates sec.name
  have hmain : guessCore candidates sections =
      specWinner (fun sec => sec.name.length *
        candidates.countP (fun t => containsWord t sec.name)) sections := by
    rw [guessCore_eq_specWinner, hfun]
  refine ⟨hmain, ?_⟩
  intro i hi
  rw [hmain] at hi
  rw [specWinner] at hi
  by_cases hz : maxScore (fun sec => sec.name.length *
      candidates.countP (fun t => containsWord t sec.name)) sections = 0
  · rw [if_pos hz] at hi; cases hi
  · rw [if_neg hz] at hi
    obtain ⟨sec, hfind, hid⟩ := Option.map_eq_some'.mp hi
    have hmem : sec ∈ sections := List.mem_of_find?_eq_some hfind
    have hpred := List.find?_some hfind
    have hscore : sec.name.length *
        candidates.countP (fun t => containsWord t sec.name) =
          maxScore (fun sec => sec.name.length *
            candidates.countP (fun t => containsWord t sec.name)) sections := by
      simpa using hpred
    have hpos : 0 < candidates.countP (fun t => containsWord t sec.name) := by
      rcases Nat.eq_zero_or_pos (candidates.countP (fun t => containsWord t sec.name)) with h0 | h
      · rw [h0, Nat.mul_zero] at hscore
        exact absurd hscore.symm hz
      · exact h
    obtain ⟨t, htmem, htc⟩ := List.countP_pos_iff.mp hpos
    exact ⟨sec, hmem, hid, t, htmem, htc⟩

/-- Witness for `guessSection_spec` at a concrete candidate list and
section list in which "Upcoming bills" wins. -/
theorem guessSection_spec_witness :
    guessCore ["pay the upcoming bills"] [⟨"8001", "Upcoming bills"⟩] =
      specWinner (fun sec => sec.name.length *
        (["pay the upcoming bills"] : List String).countP
          (fun t => containsWord t sec.name)) [⟨"8001", "Upcoming bills"⟩] ∧
    (∃ sec ∈ ([⟨"8001", "Upcoming bills"⟩] : List TaxRef), sec.id = "8001" ∧
      ∃ t ∈ (["pay the upcoming bills"] : List String), containsWord t sec.name = true) := by
  have h := guessSection_spec ["pay the upcoming bills"] [⟨"8001", "Upcoming bills"⟩]
  exact ⟨h.1, h.2 "8001" (by decide)⟩

/-- Claim C6: `ensureSections` is idempotent — for any snapshot and
non-empty project id, the two calls together fetch exactly once when the
sections key is absent and zero times when it is present (the stored value
is an array and arrays, `[]` included, are truthy in JS, so the guard is
key presence), and a present key makes the call a no-op that leaves the
snapshot unchanged. -/
theorem ensureSections_idempotent (remote : String → List TaxRef) (refs : Refs) (pid : String)
    (h : pid ≠ "") :
    ((ensureSections remote refs pid).2 +
        (ensureSections remote (ensureSections remote refs pid).1 pid).2 =
      if (refs.sections.lookup pid).isSome then 0 else 1) ∧
    ((refs.sections.lookup pid).isSome →
      (ensureSections remote refs pid).1 = refs ∧ (ensureSections remote refs pid).2 = 0) := by
  cases hl : refs.sections.lookup pid with
  | some v =>
    refine ⟨?_, fun _ => ⟨?_, ?_⟩⟩ <;> simp [ensureSections, h, hl]
  | none =>
    have hstep : ensureSections remote refs pid =
        ({ refs with sections := refs.sections ++ [(pid, remote pid)] }, 1) := by
      simp [ensureSections, h, hl]
    have h2 : (refs.sections ++ [(pid, remote pid)]).lookup pid = some (remote pid) :=
      lookup_append_of_none pid (remote pid) refs.sections hl
    constructor
    · rw [hstep]
      simp [ensureSections, h, h2, hl]
    · intro hcontra
      simp at hcontra

/-- Witness for `ensureSections_idempotent` at a concrete snapshot whose
sections map holds an empty list for the project. -/
theorem ensureSections_idempotent_witness :
    ((ensureSections (fun _ => []) ⟨[], [], [("6001", [])]⟩ "6001").2 +
        (ensureSections (fun _ => [])
          (ensureSections (fun _ => []) ⟨[], [], [("6001", [])]⟩ "6001").1 "6001").2 =
      if ((⟨[], [], [("6001", [])]⟩ : Refs).sections.lookup "6001").isSome then 0 else 1) ∧
    (((⟨[], [], [("6001", [])]⟩ : Refs).sections.lookup "6001").isSome →
      (ensureSections (fun _ => []) ⟨[], [], [("6001", [])]⟩ "6001").1 =
        ⟨[], [], [("6001", [])]⟩ ∧
      (ensureSections (fun _ => []) ⟨[], [], [("6001", [])]⟩ "6001").2 = 0) :=
  ensureSections_idempotent (fun _ => []) ⟨[], [], [("6001", [])]⟩ "6001" (by decide)

/-- Claim C7, counterexample: the extension implementation's request body
never contains a priority key, even when a numeric priority is present —
the clamping policy does not apply in both implementations. -/
theorem priority_counterexample :
    ({ scenarioExtraction with priority := some 3 } : Enriched).priority = some 3 ∧
    (buildTaskBodyTs scenarioTranscript { scenarioExtraction with priority := some 3 }
      none none scenarioRefs).priority = none := by
  refine ⟨rfl, by decide⟩

/-- Claim C7 (amended): the script implementation includes the priority
clamped to `[1,4]` whenever a numeric priority is present (an in-range
value passes through unchanged) and omits the field when it is absent or
non-numeric; the extension implementation omits the priority field
unconditionally. -/
theorem priority_policy (transcription : String) (e : Enriched) (epid : Option String)
    (refs : Refs) (dpid dpname : Option String) :
    (∀ n : Int, e.priority = some n →
      ∃ p : Int, (buildTaskBodyJs transcription e epid refs).priority = some p ∧
        1 ≤ p ∧ p ≤ 4 ∧ (1 ≤ n → n ≤ 4 → p = n)) ∧
    (e.priority = none → (buildTaskBodyJs transcription e epid refs).priority = none) ∧
    (buildTaskBodyTs transcription e dpid dpname refs).priority = none := by
  have hjs : (buildTaskBodyJs transcription e epid refs).priority = clampPriority e.priority :=
    rfl
  refine ⟨?_, ?_, rfl⟩
  · intro n hn
    refine ⟨min 4 (max 1 n), ?_, by omega, by omega, by omega⟩
    rw [hjs, hn]
    rfl
  · intro hn
    rw [hjs, hn]
    rfl

/-- Witness for `priority_policy`: an out-of-range priority 9 is clamped by
the script implementation. -/
theorem priority_policy_witness :
    ∃ p : Int, (buildTaskBodyJs scenarioTranscript
      { scenarioExtraction with priority := some 9 } none scenarioRefs).priority = some p ∧
      1 ≤ p ∧ p ≤ 4 ∧ (1 ≤ (9 : Int) → (9 : Int) ≤ 4 → p = 9) :=
  (priority_policy scenarioTranscript { scenarioExtraction with priority := some 9 }
    none scenarioRefs none none).1 9 rfl

/-- Claim C8: when every clipboard poll during the capture window still
reads the sentinel, the pipeline aborts with the capture-timeout error and
performs no archive write and no task-creation request. -/
theorem captureTimeout_aborts (sentinel : String) (reads : Nat → String) (fuel : Nat)
    (analysisOf : String → Enriched) (epid : Option String) (refs : Refs)
    (h : ∀ i, reads i = sentinel) :
    runPipeline sentinel reads fuel analysisOf epid refs =
      (⟨[], []⟩, some "Timeout waiting for transcription") ∧
    (runPipeline sentinel reads fuel analysisOf epid refs).1.archiveWrites = [] ∧
    (runPipeline sentinel reads fuel analysisOf epid refs).1.taskPosts = [] := by
  have hw : waitForClipboardChangeFromSentinel sentinel reads fuel = "" :=
    waitLoop_all_sentinel sentinel reads h fuel 0 sentinel
  have hcap : captureClipboardTranscription sentinel reads fuel = none := by
    simp [captureClipboardTranscription, hw]
  refine ⟨?_, ?_, ?_⟩ <;> simp [runPipeline, hcap]

/-- Witness for `captureTimeout_aborts` with a concrete constant-sentinel
clipboard. -/
theorem captureTimeout_aborts_witness :
    runPipeline "__VOICE_NOTE_WAIT__" (fun _ => "__VOICE_NOTE_WAIT__") 5
        (fun _ => scenarioExtraction) none scenarioRefs =
      (⟨[], []⟩, some "Timeout waiting for transcription") ∧
    (runPipeline "__VOICE_NOTE_WAIT__" (fun _ => "__VOICE_NOTE_WAIT__") 5
        (fun _ => scenarioExtraction) none scenarioRefs).1.archiveWrites = [] ∧
    (runPipeline "__VOICE_NOTE_WAIT__" (fun _ => "__VOICE_NOTE_WAIT__") 5
        (fun _ => scenarioExtraction) none scenarioRefs).1.taskPosts = [] :=
  captureTimeout_aborts "__VOICE_NOTE_WAIT__" (fun _ => "__VOICE_NOTE_WAIT__") 5
    (fun _ => scenarioExtraction) none scenarioRefs (fun _ => rfl)

/-- Claim C9: `applyRules` never changes the extraction's title,
description, category or urls — only projectName, sectionName, labels,
priority and due_string can differ — and the `.ts` variant returns the
input unchanged whenever loading the rules file fails (the model of its
internal `try`/`catch`). -/
theorem applyRules_frame (rt : String → String → Option Bool) (transcription : String)
    (E : Enriched) (rules : List Rule) :
    (applyRules rt transcription E rules).title = E.title ∧
    (applyRules rt transcription E rules).description = E.description ∧
    (applyRules rt transcription E rules).category = E.category ∧
    (applyRules rt transcription E rules).urls = E.urls ∧
    applyRulesWithLoad rt transcription E none = E :=
  ⟨(applyRules_loop_frame rt (hayOf transcription E) rules E).1,
   (applyRules_loop_frame rt (hayOf transcription E) rules E).2.1,
   (applyRules_loop_frame rt (hayOf transcription E) rules E).2.2.1,
   (applyRules_loop_frame rt (hayOf transcription E) rules E).2.2.2,
   rfl⟩

/-- Claim C10: the clipboard wait returns either the empty string (on
timeout) or a string of length at least 8 — an accepted first read must
have length ≥ 8 and the confirming second read replaces it only when at
least as long. -/
theorem waitClipboard_length_min (sentinel : String) (reads : Nat → String) (fuel : Nat) :
    waitForClipboardChangeFromSentinel sentinel reads fuel = "" ∨
      8 ≤ (waitForClipboardChangeFromSentinel sentinel reads fuel).length :=
  waitLoop_len sentinel reads fuel 0 sentinel

end VoiceTodoist
